import Mathlib

/-!
Shallow embedding of the work-wave bulk-insert monitor
(`src/bulkInsertMonitor.ts`) and the drift-free badge scheduler
(`src/codingBuddyBot.ts`).

Times are modelled as integers (JS numbers; every time value that occurs
here is an exact integer of epoch milliseconds).  The JS `Map` used for the pending-review
table is modelled as an association list whose `set` replaces the entry
with the given key in place (JS maps keep keys unique and preserve
insertion order).
-/

namespace WorkWave

/-- The `PendingReview` record from `bulkInsertMonitor.ts`. -/
structure PendingReview where
  deadline : ℤ
  expectedMs : ℤ
  chars : Nat
  lines : Nat
  deriving DecidableEq, Repr

/-- The `lastBulkInsert` payload slot. -/
structure BulkPayload where
  text : String
  timestamp : ℤ
  uri : String
  chars : Nat
  lines : Nat
  deriving DecidableEq, Repr

/-- The `lastBulkInsertSummary` slot. -/
structure SummaryRec where
  summaryText : String
  timestamp : ℤ
  uri : String
  deriving DecidableEq, Repr

/-- Mutable fields of `BulkInsertMonitor`. -/
structure MonitorState where
  pending : List (String × PendingReview)
  lastBulkInsert : Option BulkPayload
  lastBulkInsertSummary : Option SummaryRec
  deriving DecidableEq, Repr

/-- Fresh monitor: empty map, no cached payload, no summary. -/
def initialMonitor : MonitorState :=
  { pending := [], lastBulkInsert := none, lastBulkInsertSummary := none }

/-- JS `Map.get`: value of the entry with the given key, if any. -/
def mapGet : List (String × PendingReview) → String → Option PendingReview
  | [], _ => none
  | p :: rest, k => if p.1 = k then some p.2 else mapGet rest k

/-- JS `Map.set`: replace the entry with this key in place, else append. -/
def mapSet : List (String × PendingReview) → String → PendingReview →
    List (String × PendingReview)
  | [], k, v => [(k, v)]
  | p :: rest, k, v => if p.1 = k then (k, v) :: rest else p :: mapSet rest k v

/-- JS `Map.delete`: drop the entry with this key. -/
def mapDelete : List (String × PendingReview) → String → List (String × PendingReview)
  | [], _ => []
  | p :: rest, k => if p.1 = k then mapDelete rest k else p :: mapDelete rest k

/-- One `TextDocumentChangeEvent`: document id, language id, and the `text`
of each element of `contentChanges` (a pure deletion has empty text). -/
structure TextChangeEvent where
  uri : String
  languageId : String
  changes : List String
  deriving DecidableEq, Repr

/-- Aggregate `insertedChars`: sum of the lengths of the change texts (empty texts
are skipped by the source loop but contribute 0 anyway). -/
def insertedChars (e : TextChangeEvent) : Nat :=
  (e.changes.map String.length).sum

/-- Count from `c.text.split(/\r?\n/).length - 1`: one match per `'\n'` character
(a `"\r\n"` pair is a single match), so this is the `'\n'` count. -/
def countNewlines (s : String) : Nat :=
  s.data.count '\n'

/-- Aggregate `insertedLines`: total newline count over the change texts. -/
def insertedLines (e : TextChangeEvent) : Nat :=
  (e.changes.map countNewlines).sum

/-- Aggregate `insertedParts`: the non-empty change texts, in arrival order. -/
def insertedParts (e : TextChangeEvent) : List String :=
  e.changes.filter (fun c => c != "")

/-- Characters removed by `String.prototype.trim`. -/
def jsWhitespace (c : Char) : Bool :=
  c == ' ' || c == '\t' || c == '\n' || c == '\r' || c == '\x0b' || c == '\x0c'

/-- Predicate `e.contentChanges.some(c => (c.text || "").trim().length > 0)`. -/
def hasNonWhitespaceB (e : TextChangeEvent) : Bool :=
  e.changes.any (fun c => c.data.any (fun ch => !jsWhitespace ch))

/-- Test `isTyping`: `insertedChars > 0 && insertedChars <= TYPING_MAX_CHARS &&
e.contentChanges.length <= 3` with `TYPING_MAX_CHARS = 32`. -/
def isTypingB (e : TextChangeEvent) : Bool :=
  decide (0 < insertedChars e) && decide (insertedChars e ≤ 32) &&
    decide (e.changes.length ≤ 3)

/-- JS `Math.max` on (NaN-free) numbers. -/
def jsMax (a b : ℤ) : ℤ := if a < b then b else a

/-- JS `Math.min` on (NaN-free) numbers. -/
def jsMin (a b : ℤ) : ℤ := if a < b then a else b

/-- JS `String.prototype.toLowerCase`, character by character. -/
def jsToLower (s : String) : String := String.mk (s.data.map Char.toLower)

/-- Estimator `estimateReviewTimeMs`: `chars·15 + max(0, lines)·150`, scaled by the
language factor (1.2 for Java, exact on these operands:
`(15c+150l)·1.2 = (15c+150l)·6/5 = 18c+180l`, an integer), clamped to
`[1500, 20000]` by `Math.max(1500, Math.min(ms, 20000))`. -/
def estimateReviewTimeMs (chars lines : Nat) (languageId : String) : ℤ :=
  let ms : ℤ := (chars : ℤ) * 15 + jsMax 0 (lines : ℤ) * 150
  let scaled : ℤ := if jsToLower languageId = "java" then ms * 6 / 5 else ms
  jsMax 1500 (jsMin scaled 20000)

/-- Observable notifications emitted by `handleTextChange`: the
large-insertion prompt (with the summary-panel opening), or the
early-edit warning carrying `(elapsedMs, expectedMs)`. -/
inductive MonitorSignal where
  | bulkPrompt (lines chars : Nat) (expectedMs : ℤ)
  | earlyEditWarning (elapsedMs expectedMs : ℤ)
  deriving DecidableEq, Repr

/-- Holds `true` exactly on the large-insertion prompt. -/
def isBulkSignal : Option MonitorSignal → Bool
  | some (MonitorSignal.bulkPrompt _ _ _) => true
  | _ => false

/-- Method `BulkInsertMonitor.handleTextChange`, with `now = Date.now()` passed
explicitly; returns the new state and the emitted notification. -/
def handleTextChange (now : ℤ) (e : TextChangeEvent) (s : MonitorState) :
    MonitorState × Option MonitorSignal :=
  let chars := insertedChars e
  let lines := insertedLines e
  if 300 ≤ chars ∨ 8 ≤ lines then
    let expectedMs := estimateReviewTimeMs chars lines e.languageId
    let deadline := now + expectedMs
    ({ pending := mapSet s.pending e.uri
        { deadline := deadline, expectedMs := expectedMs, chars := chars, lines := lines },
       lastBulkInsert := some
        { text := String.intercalate "\n" (insertedParts e), timestamp := now,
          uri := e.uri, chars := chars, lines := lines },
       lastBulkInsertSummary := s.lastBulkInsertSummary },
     some (MonitorSignal.bulkPrompt lines chars expectedMs))
  else
    match mapGet s.pending e.uri with
    | some p =>
      if now < p.deadline then
        if isTypingB e && hasNonWhitespaceB e then
          let elapsed := jsMax 0 (p.expectedMs - (p.deadline - now))
          ({ s with pending := mapDelete s.pending e.uri },
           some (MonitorSignal.earlyEditWarning elapsed p.expectedMs))
        else (s, none)
      else
        ({ s with pending := mapDelete s.pending e.uri }, none)
    | none => (s, none)

/-- Query `isInReviewWindow(uri)`: `false` on `undefined`, otherwise
`!!(rec && Date.now() < rec.deadline)`.  The method body contains no
assignment, so the embedding returns the state unchanged alongside the
boolean. -/
def isInReviewWindow (s : MonitorState) (now : ℤ) (uri : Option String) :
    Bool × MonitorState :=
  match uri with
  | none => (false, s)
  | some u =>
    match mapGet s.pending u with
    | some r => (decide (now < r.deadline), s)
    | none => (false, s)

/-- Getter `getLastBulkInsertText`. -/
def getLastBulkInsertText (s : MonitorState) : Option String :=
  s.lastBulkInsert.map (fun b => b.text)

/-- Getter `getLastBulkInsertMeta`. -/
def getLastBulkInsertMeta (s : MonitorState) : Option (ℤ × String × Nat × Nat) :=
  s.lastBulkInsert.map (fun b => (b.timestamp, b.uri, b.chars, b.lines))

/-! Badge scheduler from `codingBuddyBot.ts`.  Times are epoch
milliseconds (naturals; session anchors precede the current time).
`badgeTimeout` models the single outstanding `setTimeout` handle as the
pair `(k, fireAt)` of the scheduled ordinal and absolute fire time. -/

/-- Fields of `CodingBuddyBot` used by the badge clock.  `badgesCount` is
`badgesThisSession.length`. -/
structure BotState where
  isActive : Bool
  badgeClockRunning : Bool
  badgeTimeout : Option (Nat × Nat)
  badgesCount : Nat
  sessionStartTime : Nat
  badgeIntervalMinutes : Nat
  deriving DecidableEq, Repr

/-- Interval `intervalMs = badgeIntervalMinutes * 60 * 1000`. -/
def badgeIntervalMs (s : BotState) : Nat :=
  s.badgeIntervalMinutes * 60 * 1000

/-- Ordinal `k = Math.floor((now - sessionStartTime) / intervalMs) + 1`. -/
def nextOrdinal (s : BotState) (now : Nat) : Nat :=
  (now - s.sessionStartTime) / badgeIntervalMs s + 1

/-- Fire time `nextAt = sessionStartTime + k * intervalMs`. -/
def nextFireAt (s : BotState) (now : Nat) : Nat :=
  s.sessionStartTime + nextOrdinal s now * badgeIntervalMs s

/-- Delay `delay = Math.max(0, nextAt - now)` (truncated subtraction is that max). -/
def nextDelay (s : BotState) (now : Nat) : Nat :=
  nextFireAt s now - now

/-- Method `stopBadgeClock`: cancel the outstanding task, clear the flag. -/
def stopBadgeClock (s : BotState) : BotState :=
  { s with badgeTimeout := none, badgeClockRunning := false }

/-- Method `scheduleNextBadge`: guard on an active anchored session, then plant
one `setTimeout` for the next whole multiple of the interval. -/
def scheduleNextBadge (now : Nat) (s : BotState) : BotState :=
  if s.isActive = false then stopBadgeClock s
  else if s.sessionStartTime = 0 then stopBadgeClock s
  else { s with badgeTimeout := some (nextOrdinal s now, now + nextDelay s now) }

/-- Method `startBadgeClock`: no-op unless the session is active and anchored and
the clock is not already running (the test-interval override is compiled
out: `__TEST_BADGE_INTERVAL__ = false` makes the assignment the identity). -/
def startBadgeClock (now : Nat) (s : BotState) : BotState :=
  if s.isActive = false then s
  else if s.sessionStartTime = 0 then s
  else if s.badgeClockRunning then s
  else scheduleNextBadge now { s with badgeClockRunning := true }

/-- Method `awardTimeBadge`: guarded unshift onto `badgesThisSession`, truncated
to 200 entries. -/
def awardTimeBadge (s : BotState) : BotState :=
  if s.isActive = false then s
  else { s with badgesCount := min (s.badgesCount + 1) 200 }

/-- The `setTimeout` callback planted by `scheduleNextBadge`: it can run
only while a timeout is outstanding; it re-checks `isActive`, awards the
badge and reschedules from the same anchor. -/
def badgeTick (now : Nat) (s : BotState) : BotState :=
  match s.badgeTimeout with
  | none => s
  | some _ =>
    if s.isActive = false then stopBadgeClock s
    else scheduleNextBadge now (awardTimeBadge s)

/-! Helper lemmas. -/

theorem jsMax_eq_max (a b : ℤ) : jsMax a b = max a b := by
  simp only [jsMax, max_def]
  rcases lt_trichotomy a b with h | h | h
  · rw [if_pos h, if_pos h.le]
  · subst h; simp
  · rw [if_neg (not_lt.mpr h.le), if_neg (not_le.mpr h)]

theorem jsMin_eq_min (a b : ℤ) : jsMin a b = min a b := by
  simp only [jsMin, min_def]
  rcases lt_trichotomy a b with h | h | h
  · rw [if_pos h, if_pos h.le]
  · subst h; simp
  · rw [if_neg (not_lt.mpr h.le), if_neg (not_le.mpr h)]

theorem mapGet_mapSet_self (m : List (String × PendingReview)) (k : String)
    (v : PendingReview) : mapGet (mapSet m k v) k = some v := by
  induction m with
  | nil => simp [mapGet, mapSet]
  | cons p rest ih =>
    by_cases h : p.1 = k
    · simp [mapSet, mapGet, h]
    · simp [mapSet, mapGet, h, ih]

theorem mapGet_mapSet_ne (m : List (String × PendingReview)) (k k' : String)
    (v : PendingReview) (hne : k' ≠ k) : mapGet (mapSet m k v) k' = mapGet m k' := by
  induction m with
  | nil =>
    simp only [mapSet, mapGet]
    rw [if_neg (fun h : k = k' => hne h.symm)]
  | cons p rest ih =>
    by_cases h : p.1 = k
    · simp only [mapSet, if_pos h, mapGet]
      rw [if_neg (fun hk : k = k' => hne hk.symm), if_neg (fun hk : p.1 = k' => hne (hk ▸ h))]
    · simp only [mapSet, if_neg h, mapGet, ih]

theorem mapGet_mapDelete_self (m : List (String × PendingReview)) (k : String) :
    mapGet (mapDelete m k) k = none := by
  induction m with
  | nil => simp [mapGet, mapDelete]
  | cons p rest ih =>
    by_cases h : p.1 = k
    · simp [mapDelete, h, ih]
    · simp [mapDelete, mapGet, h, ih]

theorem mapGet_mapDelete_ne (m : List (String × PendingReview)) (k k' : String)
    (hne : k' ≠ k) : mapGet (mapDelete m k) k' = mapGet m k' := by
  induction m with
  | nil => simp [mapDelete]
  | cons p rest ih =>
    by_cases h : p.1 = k
    · simp only [mapDelete, if_pos h, ih, mapGet]
      rw [if_neg (fun hk : p.1 = k' => hne (hk ▸ h))]
    · simp only [mapDelete, if_neg h, mapGet, ih]

theorem mem_keys_mapSet (m : List (String × PendingReview)) (k x : String)
    (v : PendingReview) :
    x ∈ (mapSet m k v).map Prod.fst ↔ x = k ∨ x ∈ m.map Prod.fst := by
  induction m with
  | nil => simp [mapSet, eq_comm]
  | cons p rest ih =>
    by_cases h : p.1 = k
    · simp [mapSet, h, eq_comm]
    · simp only [mapSet, if_neg h, List.map_cons, List.mem_cons, ih]
      tauto

theorem mem_keys_mapDelete (m : List (String × PendingReview)) (k x : String)
    (hx : x ∈ (mapDelete m k).map Prod.fst) : x ∈ m.map Prod.fst := by
  induction m with
  | nil => simp [mapDelete] at hx
  | cons p rest ih =>
    by_cases h : p.1 = k
    · rw [mapDelete, if_pos h] at hx
      exact List.mem_cons.mpr (Or.inr (ih hx))
    · rw [mapDelete, if_neg h] at hx
      rcases List.mem_cons.mp hx with h' | h'
      · exact List.mem_cons.mpr (Or.inl h')
      · exact List.mem_cons.mpr (Or.inr (ih h'))

theorem nodup_keys_mapSet (m : List (String × PendingReview)) (k : String)
    (v : PendingReview) (hm : (m.map Prod.fst).Nodup) :
    ((mapSet m k v).map Prod.fst).Nodup := by
  induction m with
  | nil => simp [mapSet]
  | cons p rest ih =>
    rw [List.map_cons, List.nodup_cons] at hm
    by_cases h : p.1 = k
    · rw [mapSet, if_pos h, List.map_cons, List.nodup_cons]
      exact ⟨fun hk => hm.1 (h ▸ hk), hm.2⟩
    · rw [mapSet, if_neg h, List.map_cons, List.nodup_cons]
      refine ⟨fun hk => ?_, ih hm.2⟩
      rcases (mem_keys_mapSet rest k p.1 v).mp hk with h' | h'
      · exact h h'
      · exact hm.1 h'

theorem nodup_keys_mapDelete (m : List (String × PendingReview)) (k : String)
    (hm : (m.map Prod.fst).Nodup) : ((mapDelete m k).map Prod.fst).Nodup := by
  induction m with
  | nil => simp [mapDelete]
  | cons p rest ih =>
    rw [List.map_cons, List.nodup_cons] at hm
    by_cases h : p.1 = k
    · rw [mapDelete, if_pos h]; exact ih hm.2
    · rw [mapDelete, if_neg h, List.map_cons, List.nodup_cons]
      exact ⟨fun hk => hm.1 (mem_keys_mapDelete rest k p.1 hk), ih hm.2⟩

theorem estimate_lower (chars lines : Nat) (languageId : String) :
    1500 ≤ estimateReviewTimeMs chars lines languageId := by
  rw [estimateReviewTimeMs, jsMax_eq_max]
  exact le_max_left _ _

theorem estimate_upper (chars lines : Nat) (languageId : String) :
    estimateReviewTimeMs chars lines languageId ≤ 20000 := by
  rw [estimateReviewTimeMs, jsMax_eq_max, jsMin_eq_min]
  exact max_le (by norm_num) (min_le_right _ _)

theorem estimate_of_not_java (chars lines : Nat) (languageId : String)
    (h : jsToLower languageId ≠ "java") :
    estimateReviewTimeMs chars lines languageId =
      max 1500 (min ((chars : ℤ) * 15 + (lines : ℤ) * 150) 20000) := by
  rw [estimateReviewTimeMs]
  simp only [if_neg h, jsMax_eq_max, jsMin_eq_min]
  rw [max_eq_right (by positivity : (0:ℤ) ≤ (lines : ℤ))]

/-- Equation for the bulk-insert branch of `handleTextChange`. -/
theorem handleTextChange_eq_bulk (now : ℤ) (e : TextChangeEvent) (s : MonitorState)
    (h : 300 ≤ insertedChars e ∨ 8 ≤ insertedLines e) :
    handleTextChange now e s =
      ({ pending := mapSet s.pending e.uri
          { deadline := now + estimateReviewTimeMs (insertedChars e) (insertedLines e) e.languageId,
            expectedMs := estimateReviewTimeMs (insertedChars e) (insertedLines e) e.languageId,
            chars := insertedChars e, lines := insertedLines e },
         lastBulkInsert := some
          { text := String.intercalate "\n" (insertedParts e), timestamp := now,
            uri := e.uri, chars := insertedChars e, lines := insertedLines e },
         lastBulkInsertSummary := s.lastBulkInsertSummary },
       some (MonitorSignal.bulkPrompt (insertedLines e) (insertedChars e)
         (estimateReviewTimeMs (insertedChars e) (insertedLines e) e.languageId))) := by
  rw [handleTextChange]
  simp only [if_pos h]

/-- Equation for a non-bulk event on a document with no pending entry. -/
theorem handleTextChange_eq_noEntry (now : ℤ) (e : TextChangeEvent) (s : MonitorState)
    (h : ¬(300 ≤ insertedChars e ∨ 8 ≤ insertedLines e))
    (hp : mapGet s.pending e.uri = none) :
    handleTextChange now e s = (s, none) := by
  rw [handleTextChange]
  simp only [if_neg h, hp]

/-- Equation for the early-edit warning branch. -/
theorem handleTextChange_eq_warn (now : ℤ) (e : TextChangeEvent) (s : MonitorState)
    (p : PendingReview)
    (h : ¬(300 ≤ insertedChars e ∨ 8 ≤ insertedLines e))
    (hp : mapGet s.pending e.uri = some p)
    (hlt : now < p.deadline)
    (hty : (isTypingB e && hasNonWhitespaceB e) = true) :
    handleTextChange now e s =
      ({ s with pending := mapDelete s.pending e.uri },
       some (MonitorSignal.earlyEditWarning (jsMax 0 (p.expectedMs - (p.deadline - now)))
         p.expectedMs)) := by
  rw [handleTextChange]
  simp only [if_neg h, hp, if_pos hlt, hty, if_pos]

/-- Equation for a non-bulk, non-typing event inside the window: nothing happens. -/
theorem handleTextChange_eq_keep (now : ℤ) (e : TextChangeEvent) (s : MonitorState)
    (p : PendingReview)
    (h : ¬(300 ≤ insertedChars e ∨ 8 ≤ insertedLines e))
    (hp : mapGet s.pending e.uri = some p)
    (hlt : now < p.deadline)
    (hty : (isTypingB e && hasNonWhitespaceB e) = false) :
    handleTextChange now e s = (s, none) := by
  rw [handleTextChange]
  simp only [if_neg h, hp, if_pos hlt, hty]
  simp

/-- Equation for the timeout branch: the entry is discarded silently. -/
theorem handleTextChange_eq_timeout (now : ℤ) (e : TextChangeEvent) (s : MonitorState)
    (p : PendingReview)
    (h : ¬(300 ≤ insertedChars e ∨ 8 ≤ insertedLines e))
    (hp : mapGet s.pending e.uri = some p)
    (hge : ¬ now < p.deadline) :
    handleTextChange now e s =
      ({ s with pending := mapDelete s.pending e.uri }, none) := by
  rw [handleTextChange]
  simp only [if_neg h, hp, if_neg hge]

/-- A non-bulk event takes exactly one of three branches: no entry (or a
retained entry), the early-edit warning, or the silent timeout discard. -/
theorem handleTextChange_nonbulk_cases (now : ℤ) (e : TextChangeEvent) (s : MonitorState)
    (h : ¬(300 ≤ insertedChars e ∨ 8 ≤ insertedLines e)) :
    handleTextChange now e s = (s, none) ∨
    (∃ p, mapGet s.pending e.uri = some p ∧ now < p.deadline ∧
      (isTypingB e && hasNonWhitespaceB e) = true ∧
      handleTextChange now e s =
        ({ s with pending := mapDelete s.pending e.uri },
         some (MonitorSignal.earlyEditWarning (jsMax 0 (p.expectedMs - (p.deadline - now)))
           p.expectedMs))) ∨
    (∃ p, mapGet s.pending e.uri = some p ∧ ¬ now < p.deadline ∧
      handleTextChange now e s =
        ({ s with pending := mapDelete s.pending e.uri }, none)) := by
  rcases hp : mapGet s.pending e.uri with _ | p
  · exact Or.inl (handleTextChange_eq_noEntry now e s h hp)
  · by_cases hlt : now < p.deadline
    · rcases hty : (isTypingB e && hasNonWhitespaceB e) with _ | _
      · exact Or.inl (handleTextChange_eq_keep now e s p h hp hlt hty)
      · exact Or.inr (Or.inl ⟨p, rfl, hlt, rfl, handleTextChange_eq_warn now e s p h hp hlt hty⟩)
    · exact Or.inr (Or.inr ⟨p, rfl, hlt, handleTextChange_eq_timeout now e s p h hp hlt⟩)

/-- C1: an aggregated edit event is classified as a bulk insert iff the
inserted chars total at least 300 or the inserted newlines total at least
8; a small event never opens a review window (it only ever preserves or
deletes pending entries, never creates or modifies one). -/
theorem c1_bulk_classification (now : ℤ) (e : TextChangeEvent) (s : MonitorState) :
    (isBulkSignal (handleTextChange now e s).2 = true ↔
      300 ≤ insertedChars e ∨ 8 ≤ insertedLines e) ∧
    (insertedChars e < 300 ∧ insertedLines e < 8 →
      isBulkSignal (handleTextChange now e s).2 = false ∧
      ∀ k, mapGet (handleTextChange now e s).1.pending k = mapGet s.pending k ∨
        mapGet (handleTextChange now e s).1.pending k = none) := by
  by_cases hb : 300 ≤ insertedChars e ∨ 8 ≤ insertedLines e
  · rw [handleTextChange_eq_bulk now e s hb]
    refine ⟨by simpa [isBulkSignal] using hb, fun hsmall => absurd hb (by omega)⟩
  · have hcases := handleTextChange_nonbulk_cases now e s hb
    have hsig : isBulkSignal (handleTextChange now e s).2 = false := by
      rcases hcases with heq | ⟨p, _, _, _, heq⟩ | ⟨p, _, _, heq⟩ <;>
        rw [heq] <;> rfl
    refine ⟨by simp [hsig, hb], fun _ => ⟨hsig, fun k => ?_⟩⟩
    rcases hcases with heq | ⟨p, _, _, _, heq⟩ | ⟨p, _, _, heq⟩
    · rw [heq]; exact Or.inl rfl
    all_goals
      rw [heq]
      by_cases hk : k = e.uri
      · subst hk; exact Or.inr (mapGet_mapDelete_self _ _)
      · exact Or.inl (mapGet_mapDelete_ne _ _ _ hk)

/-- C1 witness: a 5-character single-fragment event on a document with a
pending entry neither classifies as bulk nor creates an entry. -/
def smallEvent : TextChangeEvent :=
  { uri := "file:///a.ts", languageId := "typescript", changes := ["hello"] }

/-- A sample pending-review record. -/
def samplePending : PendingReview :=
  { deadline := 7500, expectedMs := 7500, chars := 400, lines := 10 }

/-- A sample monitor state with one open entry for another document. -/
def sampleState : MonitorState :=
  { pending := [("file:///b.ts", samplePending)],
    lastBulkInsert := none, lastBulkInsertSummary := none }

theorem c1_bulk_classification_witness :
    (insertedChars smallEvent < 300 ∧ insertedLines smallEvent < 8) ∧
    isBulkSignal (handleTextChange 0 smallEvent sampleState).2 = false ∧
    (mapGet (handleTextChange 0 smallEvent sampleState).1.pending "file:///b.ts" =
      mapGet sampleState.pending "file:///b.ts" ∨
      mapGet (handleTextChange 0 smallEvent sampleState).1.pending "file:///b.ts" = none) := by
  have h := (c1_bulk_classification 0 smallEvent sampleState).2 (by decide)
  exact ⟨by decide, h.1, h.2 "file:///b.ts"⟩

/-- C2: the review-time estimate is always inside `[1500, 20000]`; for a
language without the density factor it is exactly
`clamp(chars·15 + lines·150, 1500, 20000)`; and the three spec examples
hold. -/
theorem c2_estimate_clamped (chars lines : Nat) (languageId : String) :
    (1500 ≤ estimateReviewTimeMs chars lines languageId ∧
      estimateReviewTimeMs chars lines languageId ≤ 20000) ∧
    (jsToLower languageId ≠ "java" →
      estimateReviewTimeMs chars lines languageId =
        max 1500 (min ((chars : ℤ) * 15 + (lines : ℤ) * 150) 20000)) ∧
    estimateReviewTimeMs 0 0 "plaintext" = 1500 ∧
    estimateReviewTimeMs 100000 1000 "plaintext" = 20000 ∧
    estimateReviewTimeMs 400 10 "plaintext" = 7500 := by
  exact ⟨⟨estimate_lower chars lines languageId, estimate_upper chars lines languageId⟩,
    estimate_of_not_java chars lines languageId, by decide, by decide, by decide⟩

theorem c2_estimate_clamped_witness :
    jsToLower "typescript" ≠ "java" ∧
    estimateReviewTimeMs 400 10 "typescript" =
      max 1500 (min ((400 : ℤ) * 15 + (10 : ℤ) * 150) 20000) :=
  ⟨by decide, (c2_estimate_clamped 400 10 "typescript").2.1 (by decide)⟩

/-- C9: querying the review window with an absent (`undefined`) document
reference returns `false` for every monitor state, and touches nothing. -/
theorem c9_undefined_uri_false (s : MonitorState) (now : ℤ) :
    (isInReviewWindow s now none).1 = false ∧ (isInReviewWindow s now none).2 = s :=
  ⟨rfl, rfl⟩

/-- C10: a non-bulk event (in particular both clearing paths) never touches
the cached payload or the stored summary, and no step ever resets the
payload cache to absent. -/
theorem c10_clear_preserves_cache (now : ℤ) (e : TextChangeEvent) (s : MonitorState)
    (h1 : insertedChars e < 300) (h2 : insertedLines e < 8) :
    (handleTextChange now e s).1.lastBulkInsert = s.lastBulkInsert ∧
    (handleTextChange now e s).1.lastBulkInsertSummary = s.lastBulkInsertSummary ∧
    getLastBulkInsertText (handleTextChange now e s).1 = getLastBulkInsertText s ∧
    getLastBulkInsertMeta (handleTextChange now e s).1 = getLastBulkInsertMeta s ∧
    (∀ (n : ℤ) (e' : TextChangeEvent) (s' : MonitorState),
      (handleTextChange n e' s').1.lastBulkInsert = none → s'.lastBulkInsert = none) := by
  have hb : ¬(300 ≤ insertedChars e ∨ 8 ≤ insertedLines e) := by omega
  have hframe : (handleTextChange now e s).1.lastBulkInsert = s.lastBulkInsert ∧
      (handleTextChange now e s).1.lastBulkInsertSummary = s.lastBulkInsertSummary := by
    rcases handleTextChange_nonbulk_cases now e s hb with heq | ⟨p, _, _, _, heq⟩ | ⟨p, _, _, heq⟩ <;>
      rw [heq] <;> exact ⟨rfl, rfl⟩
  refine ⟨hframe.1, hframe.2, ?_, ?_, ?_⟩
  · rw [getLastBulkInsertText, getLastBulkInsertText, hframe.1]
  · rw [getLastBulkInsertMeta, getLastBulkInsertMeta, hframe.1]
  · intro n e' s' hnone
    by_cases hb' : 300 ≤ insertedChars e' ∨ 8 ≤ insertedLines e'
    · rw [handleTextChange_eq_bulk n e' s' hb'] at hnone
      exact absurd hnone (by simp)
    · rcases handleTextChange_nonbulk_cases n e' s' hb' with heq | ⟨p, _, _, _, heq⟩ | ⟨p, _, _, heq⟩ <;>
        rw [heq] at hnone <;> exact hnone

/-- A monitor state whose payload cache is already populated. -/
def cachedState : MonitorState :=
  { pending := [("file:///a.ts", samplePending)],
    lastBulkInsert := some
      { text := "const x = 1;", timestamp := 0, uri := "file:///a.ts",
        chars := 400, lines := 10 },
    lastBulkInsertSummary := some
      { summaryText := "adds a constant", timestamp := 1, uri := "file:///a.ts" } }

theorem c10_clear_preserves_cache_witness :
    (insertedChars smallEvent < 300 ∧ insertedLines smallEvent < 8) ∧
    getLastBulkInsertText (handleTextChange 1000 smallEvent cachedState).1 =
      getLastBulkInsertText cachedState ∧
    (initialMonitor.lastBulkInsert = none) := by
  have h := c10_clear_preserves_cache 1000 smallEvent cachedState (by decide) (by decide)
  exact ⟨by decide, h.2.2.1,
    h.2.2.2.2 0 smallEvent initialMonitor (by decide)⟩

/-- C4: the pending-review table keys stay duplicate-free through every
event (at most one entry per document), and a qualifying bulk insertion
stores exactly the entry computed from that insertion, wholesale-replacing
whatever was there. -/
theorem c4_wholesale_replace (now : ℤ) (e : TextChangeEvent) (s : MonitorState)
    (hb : 300 ≤ insertedChars e ∨ 8 ≤ insertedLines e) :
    mapGet (handleTextChange now e s).1.pending e.uri = some
      { deadline := now + estimateReviewTimeMs (insertedChars e) (insertedLines e) e.languageId,
        expectedMs := estimateReviewTimeMs (insertedChars e) (insertedLines e) e.languageId,
        chars := insertedChars e, lines := insertedLines e } ∧
    (∀ (n : ℤ) (e' : TextChangeEvent) (s' : MonitorState),
      (s'.pending.map Prod.fst).Nodup →
      ((handleTextChange n e' s').1.pending.map Prod.fst).Nodup) := by
  constructor
  · rw [handleTextChange_eq_bulk now e s hb]
    exact mapGet_mapSet_self _ _ _
  · intro n e' s' hnd
    by_cases hb' : 300 ≤ insertedChars e' ∨ 8 ≤ insertedLines e'
    · rw [handleTextChange_eq_bulk n e' s' hb']
      exact nodup_keys_mapSet _ _ _ hnd
    · rcases handleTextChange_nonbulk_cases n e' s' hb' with heq | ⟨p, _, _, _, heq⟩ | ⟨p, _, _, heq⟩ <;>
        rw [heq]
      · exact hnd
      all_goals exact nodup_keys_mapDelete _ _ hnd

/-- A bulk event: ten inserted newlines. -/
def bulkEventA : TextChangeEvent :=
  { uri := "file:///a.ts", languageId := "typescript",
    changes := ["\n\n\n\n\n\n\n\n\n\n"] }

/-- A second bulk event on the same document: eight inserted newlines. -/
def bulkEventB : TextChangeEvent :=
  { uri := "file:///a.ts", languageId := "typescript",
    changes := ["\n\n\n\n\n\n\n\n"] }

theorem c4_wholesale_replace_witness :
    (300 ≤ insertedChars bulkEventB ∨ 8 ≤ insertedLines bulkEventB) ∧
    mapGet (handleTextChange 1000 bulkEventB
        (handleTextChange 0 bulkEventA initialMonitor).1).1.pending bulkEventB.uri =
      some { deadline := 2500, expectedMs := 1500, chars := 8, lines := 8 } :=
  ⟨Or.inr (by decide),
    ((c4_wholesale_replace 1000 bulkEventB
      (handleTextChange 0 bulkEventA initialMonitor).1 (Or.inr (by decide))).1).trans (by decide)⟩

/-- C5: the query `isInReviewWindow` is true iff an entry exists for the document and
`now` is strictly below its deadline (so true at `deadline - 1`, false at
`deadline`, and true immediately after a bulk insertion), and it performs
no mutation. -/
theorem c5_review_window_query (s : MonitorState) (now : ℤ) (u : String) :
    ((isInReviewWindow s now (some u)).1 = true ↔
      ∃ r, mapGet s.pending u = some r ∧ now < r.deadline) ∧
    (isInReviewWindow s now (some u)).2 = s ∧
    (∀ r, mapGet s.pending u = some r →
      (isInReviewWindow s r.deadline (some u)).1 = false ∧
      (isInReviewWindow s (r.deadline - 1) (some u)).1 = true) ∧
    (∀ e : TextChangeEvent, 300 ≤ insertedChars e ∨ 8 ≤ insertedLines e →
      (isInReviewWindow (handleTextChange now e s).1 now (some e.uri)).1 = true) := by
  refine ⟨?_, ?_, ?_, ?_⟩
  · cases hm : mapGet s.pending u with
    | none => simp [isInReviewWindow, hm]
    | some r => simp [isInReviewWindow, hm]
  · cases hm : mapGet s.pending u <;> simp [isInReviewWindow, hm]
  · intro r hm
    constructor
    · simp [isInReviewWindow, hm]
    · simp only [isInReviewWindow, hm]
      exact decide_eq_true (by omega)
  · intro e hbulk
    rw [handleTextChange_eq_bulk now e s hbulk]
    have hg := mapGet_mapSet_self s.pending e.uri
      { deadline := now + estimateReviewTimeMs (insertedChars e) (insertedLines e) e.languageId,
        expectedMs := estimateReviewTimeMs (insertedChars e) (insertedLines e) e.languageId,
        chars := insertedChars e, lines := insertedLines e }
    simp only [isInReviewWindow, hg]
    have := estimate_lower (insertedChars e) (insertedLines e) e.languageId
    exact decide_eq_true (by omega)

theorem c5_review_window_query_witness :
    (isInReviewWindow sampleState 0 (some "file:///b.ts")).1 = true ∧
    (isInReviewWindow sampleState samplePending.deadline (some "file:///b.ts")).1 = false ∧
    (isInReviewWindow sampleState (samplePending.deadline - 1) (some "file:///b.ts")).1 = true ∧
    (isInReviewWindow (handleTextChange 0 bulkEventB sampleState).1 0
      (some bulkEventB.uri)).1 = true := by
  have h := c5_review_window_query sampleState 0 "file:///b.ts"
  exact ⟨h.1.mpr ⟨samplePending, by decide, by decide⟩,
    (h.2.2.1 samplePending (by decide)).1,
    (h.2.2.1 samplePending (by decide)).2,
    h.2.2.2 bulkEventB (Or.inr (by decide))⟩

/-- An event with a non-whitespace fragment has at least one inserted
character. -/
theorem pos_chars_of_hasNonWhitespace (e : TextChangeEvent)
    (h : hasNonWhitespaceB e = true) : 0 < insertedChars e := by
  rw [hasNonWhitespaceB, List.any_eq_true] at h
  obtain ⟨c, hc, hch⟩ := h
  rw [List.any_eq_true] at hch
  obtain ⟨ch, hmem, _⟩ := hch
  have hlen : 1 ≤ c.length := by
    rw [String.length]
    exact List.length_pos.mpr (List.ne_nil_of_mem hmem)
  have hsum := List.single_le_sum (fun (x : Nat) _ => Nat.zero_le x)
    c.length (List.mem_map_of_mem String.length hc)
  rw [insertedChars]
  omega

/-- C3: on a document with an open entry, a later non-bulk edit warns with
`(elapsedMs, expectedDurationMs)` and removes the entry exactly when it
arrives strictly before the deadline and classifies as incremental typing;
the elapsed value is the time since the window opened; and an edit at or
after the deadline removes the entry silently.  The final conjunct records
that the code's typing test agrees with the claim's phrasing
(chars ≤ 32, at most 3 fragments, one non-whitespace fragment). -/
theorem c3_early_edit_warning (now : ℤ) (e : TextChangeEvent) (s : MonitorState)
    (p : PendingReview)
    (hp : mapGet s.pending e.uri = some p)
    (h1 : insertedChars e < 300) (h2 : insertedLines e < 8) :
    ((now < p.deadline ∧ (isTypingB e && hasNonWhitespaceB e) = true) ↔
      ((handleTextChange now e s).2 = some (MonitorSignal.earlyEditWarning
          (jsMax 0 (p.expectedMs - (p.deadline - now))) p.expectedMs) ∧
        mapGet (handleTextChange now e s).1.pending e.uri = none)) ∧
    (p.deadline ≤ now →
      (handleTextChange now e s).2 = none ∧
      mapGet (handleTextChange now e s).1.pending e.uri = none) ∧
    (∀ t0 : ℤ, p.deadline = t0 + p.expectedMs → t0 ≤ now →
      jsMax 0 (p.expectedMs - (p.deadline - now)) = now - t0) ∧
    ((isTypingB e && hasNonWhitespaceB e) =
      (decide (insertedChars e ≤ 32) && decide (e.changes.length ≤ 3) &&
        hasNonWhitespaceB e)) := by
  have hb : ¬(300 ≤ insertedChars e ∨ 8 ≤ insertedLines e) := by omega
  refine ⟨⟨?_, ?_⟩, ?_, ?_, ?_⟩
  · rintro ⟨hlt, hty⟩
    rw [handleTextChange_eq_warn now e s p hb hp hlt hty]
    exact ⟨rfl, mapGet_mapDelete_self _ _⟩
  · rintro ⟨hsig, -⟩
    rcases handleTextChange_nonbulk_cases now e s hb with heq | ⟨q, hq, hlt, hty, heq⟩ |
        ⟨q, hq, hge, heq⟩
    · rw [heq] at hsig
      exact absurd hsig (by simp)
    · rw [hp] at hq
      cases hq
      exact ⟨hlt, hty⟩
    · rw [heq] at hsig
      exact absurd hsig (by simp)
  · intro hge
    have hnlt : ¬ now < p.deadline := not_lt.mpr hge
    rw [handleTextChange_eq_timeout now e s p hb hp hnlt]
    exact ⟨rfl, mapGet_mapDelete_self _ _⟩
  · intro t0 h0 hle
    have hval : p.expectedMs - (p.deadline - now) = now - t0 := by rw [h0]; ring
    rw [jsMax_eq_max, hval, max_eq_right (by omega)]
  · cases hnw : hasNonWhitespaceB e with
    | false => simp
    | true =>
      have hpos := pos_chars_of_hasNonWhitespace e hnw
      simp [isTypingB, decide_eq_true hpos]

/-- The spec's 400-character, 10-line bulk insertion. -/
def bigText : String := String.mk (List.replicate 390 'a' ++ List.replicate 10 '\n')

/-- The bulk event inserting `bigText` in one fragment. -/
def bulkEvent400 : TextChangeEvent :=
  { uri := "file:///a.ts", languageId := "typescript", changes := [bigText] }

set_option maxRecDepth 100000 in
theorem c3_early_edit_warning_witness :
    mapGet (handleTextChange 0 bulkEvent400 initialMonitor).1.pending smallEvent.uri =
      some { deadline := 7500, expectedMs := 7500, chars := 400, lines := 10 } ∧
    (handleTextChange 1000 smallEvent (handleTextChange 0 bulkEvent400 initialMonitor).1).2 =
      some (MonitorSignal.earlyEditWarning 1000 7500) ∧
    mapGet (handleTextChange 1000 smallEvent
      (handleTextChange 0 bulkEvent400 initialMonitor).1).1.pending smallEvent.uri = none := by
  have h := c3_early_edit_warning 1000 smallEvent
    (handleTextChange 0 bulkEvent400 initialMonitor).1
    { deadline := 7500, expectedMs := 7500, chars := 400, lines := 10 }
    (by decide) (by decide) (by decide)
  have h2 := h.1.mp ⟨by decide, by decide⟩
  exact ⟨by decide, h2.1.trans (by decide), h2.2⟩

/-- C6 counterexample: a qualifying event with two inserted fragments
stores the fragments joined with an extra `"\n"` separator, not their
concatenation. -/
def mixedEvent : TextChangeEvent :=
  { uri := "file:///a.ts", languageId := "typescript",
    changes := ["\n\n\n\n\n\n\n\n", "x"] }

theorem c6_payload_counterexample :
    (300 ≤ insertedChars mixedEvent ∨ 8 ≤ insertedLines mixedEvent) ∧
    getLastBulkInsertText (handleTextChange 0 mixedEvent initialMonitor).1 ≠
      some (String.join (insertedParts mixedEvent)) :=
  ⟨Or.inr (by decide), by decide⟩

/-- C6 (amended): on every classified bulk insertion the payload slot is
overwritten with the inserted fragments joined by `"\n"` separators in
arrival order (empty fragments dropped), together with timestamp, document
id and totals; `getLastBulkInsertText` then returns exactly that joined
text, and is absent on a fresh monitor. -/
theorem c6_payload_last_wins (now : ℤ) (e : TextChangeEvent) (s : MonitorState)
    (hb : 300 ≤ insertedChars e ∨ 8 ≤ insertedLines e) :
    (handleTextChange now e s).1.lastBulkInsert = some
      { text := String.intercalate "\n" (insertedParts e), timestamp := now,
        uri := e.uri, chars := insertedChars e, lines := insertedLines e } ∧
    getLastBulkInsertText (handleTextChange now e s).1 =
      some (String.intercalate "\n" (insertedParts e)) ∧
    getLastBulkInsertText initialMonitor = none := by
  rw [handleTextChange_eq_bulk now e s hb]
  exact ⟨rfl, rfl, rfl⟩

theorem c6_payload_last_wins_witness :
    (8 ≤ insertedLines mixedEvent) ∧
    getLastBulkInsertText (handleTextChange 5 mixedEvent cachedState).1 =
      some "\n\n\n\n\n\n\n\n\nx" := by
  have h := c6_payload_last_wins 5 mixedEvent cachedState (Or.inr (by decide))
  exact ⟨by decide, h.2.1.trans (by decide)⟩

/-! Scheduler claims. -/

/-- C7: each scheduling step plants one delayed task for ordinal
`k = floor((now - startTime) / intervalMs) + 1` with
`delay = max(0, startTime + k·intervalMs - now)`, so the fire time is the
exact multiple `startTime + k·intervalMs`, strictly in the future; at
`now = startTime + 125000` with a 60000 ms interval this is `k = 3` firing
at `startTime + 180000`. -/
theorem c7_anchored_schedule (s : BotState) (now : Nat)
    (hA : s.isActive = true) (hT : s.sessionStartTime ≠ 0)
    (hle : s.sessionStartTime ≤ now) (hI : 0 < s.badgeIntervalMinutes) :
    (scheduleNextBadge now s).badgeTimeout =
      some (nextOrdinal s now, nextFireAt s now) ∧
    nextOrdinal s now = (now - s.sessionStartTime) / badgeIntervalMs s + 1 ∧
    nextFireAt s now = s.sessionStartTime + nextOrdinal s now * badgeIntervalMs s ∧
    now < nextFireAt s now ∧
    now + nextDelay s now = nextFireAt s now ∧
    (now = s.sessionStartTime + 125000 → badgeIntervalMs s = 60000 →
      nextOrdinal s now = 3 ∧ nextFireAt s now = s.sessionStartTime + 180000) := by
  have hI' : 0 < badgeIntervalMs s := by rw [badgeIntervalMs]; omega
  have hlt : now < nextFireAt s now := by
    rw [nextFireAt, nextOrdinal]
    have h := Nat.lt_mul_div_succ (now - s.sessionStartTime) hI'
    rw [Nat.mul_comm] at h
    generalize hP : ((now - s.sessionStartTime) / badgeIntervalMs s + 1) * badgeIntervalMs s = P at h ⊢
    omega
  have hdelay : now + nextDelay s now = nextFireAt s now := by
    rw [nextDelay]
    omega
  refine ⟨?_, rfl, rfl, hlt, hdelay, ?_⟩
  · rw [scheduleNextBadge, if_neg (by simp [hA]), if_neg hT, hdelay]
  · intro h125 h60
    have he : now - s.sessionStartTime = 125000 := by omega
    constructor
    · rw [nextOrdinal, he, h60]
    · rw [nextFireAt, nextOrdinal, he, h60]

/-- An active anchored bot, 125 s into its session with a 1-minute badge
interval. -/
def schedBot : BotState :=
  { isActive := true, badgeClockRunning := true, badgeTimeout := none,
    badgesCount := 0, sessionStartTime := 1, badgeIntervalMinutes := 1 }

theorem c7_anchored_schedule_witness :
    (scheduleNextBadge 125001 schedBot).badgeTimeout = some (3, 180001) := by
  have h := c7_anchored_schedule schedBot 125001 rfl (by decide) (by decide) (by decide)
  have hc := h.2.2.2.2.2 (by decide) (by decide)
  rw [h.1, hc.1, hc.2]
  decide

/-- A tick on a state with no outstanding task does nothing. -/
theorem badgeTick_of_no_task (t : Nat) (s : BotState) (h : s.badgeTimeout = none) :
    badgeTick t s = s := by
  simp only [badgeTick, h]

/-- No sequence of timer callbacks changes a state that has no outstanding
task. -/
theorem foldl_tick_of_no_task (ticks : List Nat) : ∀ s0 : BotState,
    s0.badgeTimeout = none → ticks.foldl (fun st t => badgeTick t st) s0 = s0 := by
  induction ticks with
  | nil => intro s0 _; rfl
  | cons t rest ih =>
    intro s0 h
    rw [List.foldl_cons, badgeTick_of_no_task t s0 h]
    exact ih s0 h

/-- C8: stop cancels the outstanding task and clears the running flag
(after which no sequence of timer callbacks fires a badge or replants a
task), start is a no-op while the clock is already running, and a tick
that fires while the session is inactive is discarded: it awards nothing,
shuts the clock down, and does not reschedule. -/
theorem c8_stop_guarantees (s : BotState) (now : Nat) :
    ((stopBadgeClock s).badgeTimeout = none ∧
      (stopBadgeClock s).badgeClockRunning = false) ∧
    (s.badgeClockRunning = true → startBadgeClock now s = s) ∧
    (s.isActive = false → ∀ x, s.badgeTimeout = some x →
      badgeTick now s = stopBadgeClock s ∧
      (badgeTick now s).badgesCount = s.badgesCount ∧
      (badgeTick now s).badgeTimeout = none) ∧
    (∀ ticks : List Nat,
      (ticks.foldl (fun st t => badgeTick t st) (stopBadgeClock s)).badgeTimeout = none ∧
      (ticks.foldl (fun st t => badgeTick t st) (stopBadgeClock s)).badgesCount =
        s.badgesCount) := by
  refine ⟨⟨rfl, rfl⟩, ?_, ?_, ?_⟩
  · intro hr
    rw [startBadgeClock]
    by_cases h1 : s.isActive = false
    · rw [if_pos h1]
    · rw [if_neg h1]
      by_cases h2 : s.sessionStartTime = 0
      · rw [if_pos h2]
      · rw [if_neg h2, if_pos hr]
  · intro hInact x hx
    have heq : badgeTick now s = stopBadgeClock s := by
      simp only [badgeTick, hx]
      rw [if_pos hInact]
    exact ⟨heq, by rw [heq]; rfl, by rw [heq]; rfl⟩
  · intro ticks
    rw [foldl_tick_of_no_task ticks (stopBadgeClock s) rfl]
    exact ⟨rfl, rfl⟩

/-- An inactive bot that still has a stale outstanding task. -/
def staleBot : BotState :=
  { isActive := false, badgeClockRunning := true, badgeTimeout := some (2, 120000),
    badgesCount := 3, sessionStartTime := 1, badgeIntervalMinutes := 1 }

theorem c8_stop_guarantees_witness :
    startBadgeClock 0 staleBot = staleBot ∧
    badgeTick 120000 staleBot = stopBadgeClock staleBot ∧
    (badgeTick 120000 staleBot).badgesCount = 3 ∧
    (([60000, 120000] : List Nat).foldl (fun st t => badgeTick t st)
      (stopBadgeClock staleBot)).badgeTimeout = none := by
  have ha := (c8_stop_guarantees staleBot 0).2.1 rfl
  have hb := (c8_stop_guarantees staleBot 120000).2.2.1 rfl (2, 120000) rfl
  have hc := (c8_stop_guarantees staleBot 120000).2.2.2 ([60000, 120000] : List Nat)
  exact ⟨ha, hb.1, hb.2.1.trans rfl, hc.1⟩

end WorkWave
